import Mathlib

/-!
Shallow embedding of the byte cursor in `src/bytes/mod.rs`.

The Rust `Cursor` holds three raw pointers `first`, `cursor`, `end` into an
immutable byte buffer, plus a `u64` counter `index`.  We model the buffer as a
`List Nat` of byte values, the pointers by the offset `pos` of `cursor` from
`first` (so `first` is offset `0` and `end` is `buf.length`), and `index` as a
natural number kept below `2 ^ 64` by explicit wrapping, mirroring the
wrapping semantics of `u64` arithmetic.  Fallible operations return their
result paired with the updated cursor state.
-/

/-- The number of values of a `u64`: the `index` field wraps modulo this. -/
def U64 : Nat := 2 ^ 64

/-- Model of `Cursor<'a>`: `buf` is the byte range `[first, end)`, `pos` the
offset of the `cursor` pointer from `first`, `index` the `u64` counter. -/
structure Cursor where
  buf : List Nat
  pos : Nat
  index : Nat
  deriving Repr, DecidableEq

/-- Model of `enum Error`: all errors `bytes` can produce. -/
inductive Error where
  | EncounteredContinuationByte
  | Missing2ndOf2
  | Invalid2ndOf2
  | Missing2ndOf3
  | Invalid2ndOf3
  | Missing3rdOf3
  | Invalid3rdOf3
  | Missing2ndOf4
  | Invalid2ndOf4
  | Missing3rdOf4
  | Invalid3rdOf4
  | Missing4thOf4
  | Invalid4thOf4
  deriving Repr, DecidableEq

/-- Model of `UTF8_CHAR_WIDTH`: the 256-entry lead-byte width table. -/
def UTF8_CHAR_WIDTH : List Nat :=
  [1, 1, 1, 1, 1, 1, 1, 1, 1, 1, 1, 1, 1, 1, 1, 1,
   1, 1, 1, 1, 1, 1, 1, 1, 1, 1, 1, 1, 1, 1, 1, 1,
   1, 1, 1, 1, 1, 1, 1, 1, 1, 1, 1, 1, 1, 1, 1, 1,
   1, 1, 1, 1, 1, 1, 1, 1, 1, 1, 1, 1, 1, 1, 1, 1,
   1, 1, 1, 1, 1, 1, 1, 1, 1, 1, 1, 1, 1, 1, 1, 1,
   1, 1, 1, 1, 1, 1, 1, 1, 1, 1, 1, 1, 1, 1, 1, 1,
   1, 1, 1, 1, 1, 1, 1, 1, 1, 1, 1, 1, 1, 1, 1, 1,
   1, 1, 1, 1, 1, 1, 1, 1, 1, 1, 1, 1, 1, 1, 1, 1,
   0, 0, 0, 0, 0, 0, 0, 0, 0, 0, 0, 0, 0, 0, 0, 0,
   0, 0, 0, 0, 0, 0, 0, 0, 0, 0, 0, 0, 0, 0, 0, 0,
   0, 0, 0, 0, 0, 0, 0, 0, 0, 0, 0, 0, 0, 0, 0, 0,
   0, 0, 0, 0, 0, 0, 0, 0, 0, 0, 0, 0, 0, 0, 0, 0,
   0, 0, 2, 2, 2, 2, 2, 2, 2, 2, 2, 2, 2, 2, 2, 2,
   2, 2, 2, 2, 2, 2, 2, 2, 2, 2, 2, 2, 2, 2, 2, 2,
   3, 3, 3, 3, 3, 3, 3, 3, 3, 3, 3, 3, 3, 3, 3, 3,
   4, 4, 4, 4, 4, 0, 0, 0, 0, 0, 0, 0, 0, 0, 0, 0]

namespace Cursor

/-- Model of `Cursor::new`. -/
def new (slice : List Nat) : Cursor :=
  { buf := slice, pos := 0, index := 0 }

/-- Model of `Cursor::has_next`: `cursor < end`. -/
def has_next (c : Cursor) : Bool :=
  c.pos < c.buf.length

/-- Model of `Cursor::peek_unchecked`: the byte at `cursor` (the default `0`
stands in for the unchecked out-of-range read, which is UB in the source). -/
def peek_unchecked (c : Cursor) : Nat :=
  c.buf.getD c.pos 0

/-- Model of `Cursor::peek`. -/
def peek (c : Cursor) : Option Nat :=
  if !c.has_next then none else some c.peek_unchecked

/-- Model of `Cursor::advance_unchecked`: `index += 1; cursor = cursor.add(1)`. -/
def advance_unchecked (c : Cursor) : Cursor :=
  { c with index := (c.index + 1) % U64, pos := c.pos + 1 }

/-- Model of `Cursor::next`. -/
def next (c : Cursor) : Option Nat × Cursor :=
  if !c.has_next then (none, c)
  else (some c.peek_unchecked, c.advance_unchecked)

/-- Model of `Cursor::next_lfn`: next byte with CR / CRLF / LF normalized to
LF.  In the CR branch the possible extra LF is skipped by bumping the raw
cursor only (`self.cursor.add(1)`), without touching `index`. -/
def next_lfn (c : Cursor) : Option Nat × Cursor :=
  match c.peek with
  | none => (none, c)
  | some b =>
    if b = 13 then
      let c1 := c.advance_unchecked
      if c1.peek = some 10 then (some 10, { c1 with pos := c1.pos + 1 })
      else (some 10, c1)
    else (some b, c.advance_unchecked)

/-- Model of `Cursor::can_rewind`: `cursor > first`. -/
def can_rewind (c : Cursor) : Bool :=
  0 < c.pos

/-- Model of `Cursor::rewind_unchecked`: `index -= 1; cursor = cursor.sub(1)`;
the `u64` decrement wraps at zero. -/
def rewind_unchecked (c : Cursor) : Cursor :=
  { c with index := (c.index + (U64 - 1)) % U64, pos := c.pos - 1 }

/-- Model of `Cursor::rewind`. -/
def rewind (c : Cursor) : Cursor :=
  if c.can_rewind then c.rewind_unchecked else c

/-- Model of `Cursor::advance`. -/
def advance (c : Cursor) : Cursor :=
  if c.has_next then c.advance_unchecked else c

/-- Model of `Cursor::rewind_lfn`: rewind one byte; if the byte now under the
cursor is LF preceded (not at `first`) by CR, rewind one more byte. -/
def rewind_lfn (c : Cursor) : Cursor :=
  if c.can_rewind then
    let c1 : Cursor := { c with index := (c.index + (U64 - 1)) % U64, pos := c.pos - 1 }
    if c1.buf.getD c1.pos 0 = 10 ∧ c1.pos ≠ 0 ∧ c1.buf.getD (c1.pos - 1) 0 = 13 then
      { c1 with pos := c1.pos - 1 }
    else c1
  else c

end Cursor

/-- Model of the `next!` macro body inside `advance_char`: read one byte via
`next_lfn`; `None` yields the `missing` error, a byte whose top two bits are
not `10` yields the `invalid` error. -/
def nextCheck (c : Cursor) (missing invalid : Error) : Except Error Unit × Cursor :=
  match c.next_lfn with
  | (none, c1) => (Except.error missing, c1)
  | (some x, c1) =>
    if x &&& 192 ≠ 128 then (Except.error invalid, c1) else (Except.ok (), c1)

/-- Early-return plumbing: propagate an error, otherwise continue on the
updated cursor (the `return Err(..)` statements inside the macro). -/
def afterOk (r : Except Error Unit × Cursor) (f : Cursor → Except Error Unit × Cursor) :
    Except Error Unit × Cursor :=
  match r with
  | (Except.error e, c) => (Except.error e, c)
  | (Except.ok _, c) => f c

namespace Cursor

/-- Model of `Cursor::advance_char`.  The final catch-all width branch is
`unreachable_unchecked()` in the source (the table only holds 0–4). -/
def advance_char (c : Cursor) : Except Error Unit × Cursor :=
  match ({ c with index := (c.index + 1) % U64 } : Cursor).next with
  | (none, c1) => (Except.ok (), c1)
  | (some first_byte, c1) =>
    match UTF8_CHAR_WIDTH.getD first_byte 0 with
    | 0 => (Except.error Error.EncounteredContinuationByte, c1)
    | 1 =>
      if first_byte = 13 ∧ c1.peek = some 10 then (Except.ok (), c1.advance_unchecked)
      else (Except.ok (), c1)
    | 2 =>
      afterOk (nextCheck c1 Error.Missing2ndOf2 Error.Invalid2ndOf2) (fun c2 =>
        (Except.ok (), c2))
    | 3 =>
      afterOk (nextCheck c1 Error.Missing2ndOf3 Error.Invalid2ndOf3) (fun c2 =>
        afterOk (nextCheck c2 Error.Missing3rdOf3 Error.Invalid3rdOf3) (fun c3 =>
          (Except.ok (), c3)))
    | 4 =>
      afterOk (nextCheck c1 Error.Missing2ndOf4 Error.Invalid2ndOf4) (fun c2 =>
        afterOk (nextCheck c2 Error.Missing3rdOf4 Error.Invalid3rdOf4) (fun c3 =>
          afterOk (nextCheck c3 Error.Missing4thOf4 Error.Invalid4thOf4) (fun c4 =>
            (Except.ok (), c4))))
    | _ + 5 => (Except.ok (), c1)

end Cursor

/-- Model of `Recorder<'a, 'c>`: the borrowed cursor plus the recorded start
pointer, kept as an offset. -/
structure Recorder where
  cursor : Cursor
  start : Nat
  deriving Repr, DecidableEq

/-- Model of `Cursor::begin_recording`. -/
def Cursor.begin_recording (c : Cursor) : Recorder :=
  { cursor := c, start := c.pos }

/-- Model of `Recorder::stop`: the slice starting at the `start` pointer of
length `start.offset_from(cursor).unsigned_abs()` (the text view is modelled
as its underlying bytes; an out-of-bounds read, UB in the source, clamps). -/
def Recorder.stop (r : Recorder) : List Nat :=
  (r.cursor.buf.drop r.start).take ((Int.ofNat r.start - Int.ofNat r.cursor.pos).natAbs)

/-! ### Auxiliary definitions used to state the claims -/

/-- Variant of `advance_char`, for comparison with it: reads the expected
continuation bytes with the raw reader `next` instead of the normalizing
reader `next_lfn` (the spec's hypothetical raw-reader variant). -/
def nextCheckRaw (c : Cursor) (missing invalid : Error) : Except Error Unit × Cursor :=
  match c.next with
  | (none, c1) => (Except.error missing, c1)
  | (some x, c1) =>
    if x &&& 192 ≠ 128 then (Except.error invalid, c1) else (Except.ok (), c1)

/-- `advance_char` with every continuation-byte read going through the raw
reader (`nextCheckRaw`) rather than the normalizing one; everything else is
unchanged. -/
def Cursor.advance_char_raw (c : Cursor) : Except Error Unit × Cursor :=
  match ({ c with index := (c.index + 1) % U64 } : Cursor).next with
  | (none, c1) => (Except.ok (), c1)
  | (some first_byte, c1) =>
    match UTF8_CHAR_WIDTH.getD first_byte 0 with
    | 0 => (Except.error Error.EncounteredContinuationByte, c1)
    | 1 =>
      if first_byte = 13 ∧ c1.peek = some 10 then (Except.ok (), c1.advance_unchecked)
      else (Except.ok (), c1)
    | 2 =>
      afterOk (nextCheckRaw c1 Error.Missing2ndOf2 Error.Invalid2ndOf2) (fun c2 =>
        (Except.ok (), c2))
    | 3 =>
      afterOk (nextCheckRaw c1 Error.Missing2ndOf3 Error.Invalid2ndOf3) (fun c2 =>
        afterOk (nextCheckRaw c2 Error.Missing3rdOf3 Error.Invalid3rdOf3) (fun c3 =>
          (Except.ok (), c3)))
    | 4 =>
      afterOk (nextCheckRaw c1 Error.Missing2ndOf4 Error.Invalid2ndOf4) (fun c2 =>
        afterOk (nextCheckRaw c2 Error.Missing3rdOf4 Error.Invalid3rdOf4) (fun c3 =>
          afterOk (nextCheckRaw c3 Error.Missing4thOf4 Error.Invalid4thOf4) (fun c4 =>
            (Except.ok (), c4))))
    | _ + 5 => (Except.ok (), c1)

/-- Continuation byte test used by `advance_char`: top two bits are `10`. -/
def isContB (b : Nat) : Bool :=
  b &&& 192 == 128

/-- Well-formed single-scalar UTF-8 byte sequences per RFC 3629 (used only to
state claims about what `advance_char` accepts; not part of the source). -/
def validScalarSeq (l : List Nat) : Bool :=
  match l with
  | [a] => a ≤ 0x7F
  | [a, b] => (0xC2 ≤ a && a ≤ 0xDF) && (0x80 ≤ b && b ≤ 0xBF)
  | [a, b, c] =>
    ((a == 0xE0 && 0xA0 ≤ b && b ≤ 0xBF) ||
     (0xE1 ≤ a && a ≤ 0xEC && 0x80 ≤ b && b ≤ 0xBF) ||
     (a == 0xED && 0x80 ≤ b && b ≤ 0x9F) ||
     (0xEE ≤ a && a ≤ 0xEF && 0x80 ≤ b && b ≤ 0xBF)) &&
    (0x80 ≤ c && c ≤ 0xBF)
  | [a, b, c, d] =>
    ((a == 0xF0 && 0x90 ≤ b && b ≤ 0xBF) ||
     (0xF1 ≤ a && a ≤ 0xF3 && 0x80 ≤ b && b ≤ 0xBF) ||
     (a == 0xF4 && 0x80 ≤ b && b ≤ 0x8F)) &&
    (0x80 ≤ c && c ≤ 0xBF) && (0x80 ≤ d && d ≤ 0xBF)
  | _ => false

/-- The `Missing*` errors: input ended while a continuation byte was expected. -/
def Error.isMissing : Error → Bool
  | .Missing2ndOf2 | .Missing2ndOf3 | .Missing3rdOf3
  | .Missing2ndOf4 | .Missing3rdOf4 | .Missing4thOf4 => true
  | _ => false

/-- The `Invalid*` errors: a byte was present but not a continuation byte. -/
def Error.isInvalid : Error → Bool
  | .Invalid2ndOf2 | .Invalid2ndOf3 | .Invalid3rdOf3
  | .Invalid2ndOf4 | .Invalid3rdOf4 | .Invalid4thOf4 => true
  | _ => false

/-- The checked public operations of the cursor (those that never have
undefined behaviour), for stating sequence invariants. -/
inductive Op where
  | peek
  | next
  | advance
  | rewind
  | next_lfn
  | rewind_lfn
  | advance_char
  | record
  deriving Repr, DecidableEq

/-- State effect of one checked public operation.  `peek` and
`record` (a `begin_recording` immediately followed by `stop`) do not move the
cursor. -/
def applyOp (c : Cursor) : Op → Cursor
  | .peek => c
  | .next => c.next.2
  | .advance => c.advance
  | .rewind => c.rewind
  | .next_lfn => c.next_lfn.2
  | .rewind_lfn => c.rewind_lfn
  | .advance_char => c.advance_char.2
  | .record => c.begin_recording.cursor

/-- Run a sequence of checked public operations. -/
def runOps (c : Cursor) : List Op → Cursor
  | [] => c
  | op :: rest => runOps (applyOp c op) rest

/-- A position does not split a CRLF pair: it is not strictly between a CR
and an immediately following LF. -/
def goodPos (buf : List Nat) (p : Nat) : Prop :=
  ¬(0 < p ∧ p < buf.length ∧ buf.getD (p - 1) 0 = 13 ∧ buf.getD p 0 = 10)

instance (buf : List Nat) (p : Nat) : Decidable (goodPos buf p) := by
  unfold goodPos; infer_instance

/-- Iterate `next_lfn` (discarding the returned bytes). -/
def nextLfnN (c : Cursor) : Nat → Cursor
  | 0 => c
  | n + 1 => nextLfnN c.next_lfn.2 n

/-- Iterate `rewind_lfn`. -/
def rewindLfnN (c : Cursor) : Nat → Cursor
  | 0 => c
  | n + 1 => rewindLfnN c.rewind_lfn n

/-- All of the next `n` calls to `next_lfn` return a byte (the cursor does
not hit the end of the buffer during them). -/
def lfnAllSome (c : Cursor) : Nat → Prop
  | 0 => True
  | n + 1 => c.next_lfn.1.isSome = true ∧ lfnAllSome c.next_lfn.2 n

instance (c : Cursor) (n : Nat) : Decidable (lfnAllSome c n) := by
  induction n generalizing c with
  | zero => exact .isTrue trivial
  | succ n ih => unfold lfnAllSome; exact @instDecidableAnd _ _ _ (ih _)

/-! ### Basic step lemmas -/

theorem peek_set_index (c : Cursor) (i : Nat) :
    ({ c with index := i } : Cursor).peek = c.peek := rfl

theorem peek_some_iff {c : Cursor} {b : Nat} :
    c.peek = some b ↔ c.pos < c.buf.length ∧ c.buf.getD c.pos 0 = b := by
  unfold Cursor.peek Cursor.has_next Cursor.peek_unchecked
  by_cases h : c.pos < c.buf.length <;> simp [h]

theorem peek_none_iff {c : Cursor} :
    c.peek = none ↔ c.buf.length ≤ c.pos := by
  unfold Cursor.peek Cursor.has_next Cursor.peek_unchecked
  by_cases h : c.pos < c.buf.length <;> simp [h]
  omega

theorem next_of_peek_some {c : Cursor} {b : Nat} (h : c.peek = some b) :
    c.next = (some b, c.advance_unchecked) := by
  unfold Cursor.peek at h
  unfold Cursor.next
  by_cases hn : c.has_next
  · simp [hn] at h ⊢
    exact h
  · simp [hn] at h

theorem next_of_peek_none {c : Cursor} (h : c.peek = none) :
    c.next = (none, c) := by
  unfold Cursor.peek at h
  unfold Cursor.next
  by_cases hn : c.has_next
  · simp [hn] at h
  · simp [hn]

/-! ### Claim theorems: concrete evaluations -/

/-- C1 (counterexample): on the buffer `[0x0D, 0x0A]` a single `advance_char`
call returns `Ok` and moves the position by two bytes, but the index counter
rises from `0` to `3`, not to `1`: the unconditional increment at the top of
`advance_char` is followed by one increment inside `next` (for the CR) and one
inside the `advance_unchecked` that skips the LF. -/
theorem c1_crlf_index_not_one :
    (Cursor.advance_char (Cursor.new [13, 10])).1 = Except.ok () ∧
    (Cursor.advance_char (Cursor.new [13, 10])).2.pos = 2 ∧
    (Cursor.advance_char (Cursor.new [13, 10])).2.index ≠ 1 := by
  refine ⟨rfl, rfl, ?_⟩
  decide

/-- C1 (amended): on `[0x0D, 0x0A]` a single `advance_char` call returns `Ok`,
moves the position forward by exactly two bytes, and increases the index
counter by exactly 3: once unconditionally for the call and once for each of
the two raw byte reads (`next` for the CR, `advance_unchecked` for the LF). -/
theorem c1_crlf_advance_char :
    (Cursor.advance_char (Cursor.new [13, 10])).1 = Except.ok () ∧
    (Cursor.advance_char (Cursor.new [13, 10])).2.pos = 2 ∧
    (Cursor.advance_char (Cursor.new [13, 10])).2.index = 3 :=
  ⟨rfl, rfl, rfl⟩

/-- C2: `advance_char` on a fresh cursor yields `Missing2ndOf2` on `[0xC2]`,
`Invalid2ndOf2` on `[0xC2, 0x41]`, `Ok` consuming exactly 2 bytes on
`[0xC2, 0xA9]`, `EncounteredContinuationByte` on `[0x80]`, `Ok` consuming
exactly 3 bytes on `[0xE2, 0x82, 0xAC]`, and `Missing4thOf4` on
`[0xF0, 0x9F, 0x92]`. -/
theorem c2_advance_char_cases :
    (Cursor.advance_char (Cursor.new [0xC2])).1 = Except.error Error.Missing2ndOf2 ∧
    (Cursor.advance_char (Cursor.new [0xC2, 0x41])).1 = Except.error Error.Invalid2ndOf2 ∧
    (Cursor.advance_char (Cursor.new [0xC2, 0xA9])).1 = Except.ok () ∧
    (Cursor.advance_char (Cursor.new [0xC2, 0xA9])).2.pos = 2 ∧
    (Cursor.advance_char (Cursor.new [0x80])).1 = Except.error Error.EncounteredContinuationByte ∧
    (Cursor.advance_char (Cursor.new [0xE2, 0x82, 0xAC])).1 = Except.ok () ∧
    (Cursor.advance_char (Cursor.new [0xE2, 0x82, 0xAC])).2.pos = 3 ∧
    (Cursor.advance_char (Cursor.new [0xF0, 0x9F, 0x92])).1 = Except.error Error.Missing4thOf4 :=
  ⟨rfl, rfl, rfl, rfl, rfl, rfl, rfl, rfl⟩

/-- C3: evaluating `Recorder::stop` at the failing input.  Over the buffer
`"abcd"` the cursor advances to offset 2, a recording begins there
(`start = 2`), the cursor rewinds twice to offset 0, and `stop` returns the
bytes `"cd"` — the slice starting at `start` and extending forward by the
distance — not the bytes `"ab"` that lie between the two positions. -/
theorem c3_backward_recording_eval :
    (((Cursor.new [97, 98, 99, 100]).advance.advance.begin_recording.cursor.rewind.rewind.begin_recording).cursor.pos = 0) ∧
    ({ cursor := (Cursor.new [97, 98, 99, 100]).advance.advance.rewind.rewind,
       start := 2 } : Recorder).stop = [99, 100] ∧
    ({ cursor := (Cursor.new [97, 98, 99, 100]).advance.advance.rewind.rewind,
       start := 2 } : Recorder).stop ≠ [97, 98] := by
  refine ⟨rfl, rfl, ?_⟩
  decide

/-- C10: over `[0x0D, 0x0A]` one `next_lfn` call moves the position to 2 while
raising `index` only to 1; both subsequent `rewind` calls pass `can_rewind`,
and the second wraps the `u64` counter from 0 to `2 ^ 64 - 1`, so `index` is
not bounded by `position - first`. -/
theorem c10_index_underflow :
    (Cursor.next_lfn (Cursor.new [13, 10])).2.pos = 2 ∧
    (Cursor.next_lfn (Cursor.new [13, 10])).2.index = 1 ∧
    (Cursor.next_lfn (Cursor.new [13, 10])).2.can_rewind = true ∧
    (Cursor.next_lfn (Cursor.new [13, 10])).2.rewind.index = 0 ∧
    (Cursor.next_lfn (Cursor.new [13, 10])).2.rewind.can_rewind = true ∧
    (Cursor.next_lfn (Cursor.new [13, 10])).2.rewind.rewind.index = 2 ^ 64 - 1 ∧
    (Cursor.next_lfn (Cursor.new [13, 10])).2.rewind.rewind.pos = 0 ∧
    (Cursor.next_lfn (Cursor.new [13, 10])).2.rewind.rewind.index >
      (Cursor.next_lfn (Cursor.new [13, 10])).2.rewind.rewind.pos := by
  refine ⟨rfl, rfl, rfl, rfl, rfl, ?_, rfl, ?_⟩ <;> decide

/-- C4 (counterexample): over `[0x41, 0x0D, 0x0A, 0x42, 0x43]` starting at
position 2 — strictly inside the buffer, between the CR and the LF — one
`next_lfn` call (which returns a byte) followed by one `rewind_lfn` call
lands at position 1, not back at 2, although no buffer boundary is hit. -/
theorem c4_not_invertible_mid_crlf :
    lfnAllSome { buf := [65, 13, 10, 66, 67], pos := 2, index := 0 } 1 ∧
    (nextLfnN { buf := [65, 13, 10, 66, 67], pos := 2, index := 0 } 1).pos = 3 ∧
    (rewindLfnN (nextLfnN { buf := [65, 13, 10, 66, 67], pos := 2, index := 0 } 1) 1).pos = 1 ∧
    (rewindLfnN (nextLfnN { buf := [65, 13, 10, 66, 67], pos := 2, index := 0 } 1) 1).pos ≠ 2 := by
  refine ⟨?_, rfl, rfl, ?_⟩ <;> decide

/-- C5 (counterexample): on `[0xC2, 0x0D, 0x0A]` the call fails with
`Invalid2ndOf2`; the failing byte — the CR at offset 1, where a continuation
byte was expected — is normalized together with the following LF, so the
final position is 3, two bytes past the failing byte rather than one. -/
theorem c5_error_pos_crlf :
    (Cursor.advance_char (Cursor.new [0xC2, 0x0D, 0x0A])).1 = Except.error Error.Invalid2ndOf2 ∧
    (Cursor.advance_char (Cursor.new [0xC2, 0x0D, 0x0A])).2.pos = 3 ∧
    (Cursor.advance_char (Cursor.new [0xC2, 0x0D, 0x0A])).2.pos ≠ 1 + 1 := by
  refine ⟨rfl, rfl, ?_⟩
  decide

/-- C6 (counterexample): on `[0xC2, 0x0D, 0x0A]` the real `advance_char`
(continuation bytes read through `next_lfn`) ends at position 3 while the
raw-reader variant ends at position 2, so the two are not observationally
identical on every input. -/
theorem c6_lfn_raw_differ :
    (Cursor.advance_char (Cursor.new [0xC2, 0x0D, 0x0A])).2.pos = 3 ∧
    (Cursor.advance_char_raw (Cursor.new [0xC2, 0x0D, 0x0A])).2.pos = 2 ∧
    (Cursor.advance_char (Cursor.new [0xC2, 0x0D, 0x0A])).2.pos ≠
      (Cursor.advance_char_raw (Cursor.new [0xC2, 0x0D, 0x0A])).2.pos := by
  refine ⟨rfl, rfl, ?_⟩
  decide

/-- C7 (counterexample): `advance_char` returns `Ok` on `[0xED, 0xA0, 0x80]`,
consuming all three bytes, although that sequence is the surrogate `U+D800`,
not a well-formed UTF-8 scalar encoding and not a normalized line
terminator. -/
theorem c7_accepts_surrogate :
    (Cursor.advance_char (Cursor.new [0xED, 0xA0, 0x80])).1 = Except.ok () ∧
    (Cursor.advance_char (Cursor.new [0xED, 0xA0, 0x80])).2.pos = 3 ∧
    validScalarSeq [0xED, 0xA0, 0x80] = false ∧
    ([0xED, 0xA0, 0x80] : List Nat) ≠ [13] ∧
    ([0xED, 0xA0, 0x80] : List Nat) ≠ [10] ∧
    ([0xED, 0xA0, 0x80] : List Nat) ≠ [13, 10] := by
  refine ⟨rfl, rfl, ?_, ?_, ?_, ?_⟩ <;> decide

/-! ### Case-analysis lemmas for the normalizing reader and the validator -/

theorem next_lfn_spec (c : Cursor) :
    (c.peek = none ∧ c.next_lfn = (none, c)) ∨
    (∃ b, c.peek = some b ∧ b ≠ 13 ∧ c.next_lfn = (some b, c.advance_unchecked)) ∨
    (c.peek = some 13 ∧ c.advance_unchecked.peek = some 10 ∧
      c.next_lfn = (some 10, { c with index := (c.index + 1) % U64, pos := c.pos + 2 })) ∨
    (c.peek = some 13 ∧ c.advance_unchecked.peek ≠ some 10 ∧
      c.next_lfn = (some 10, c.advance_unchecked)) := by
  cases h : c.peek with
  | none =>
    left
    exact ⟨rfl, by unfold Cursor.next_lfn; rw [h]⟩
  | some b =>
    by_cases hb : b = 13
    · subst hb
      by_cases h10 : c.advance_unchecked.peek = some 10
      · right; right; left
        refine ⟨rfl, h10, ?_⟩
        unfold Cursor.next_lfn
        rw [h]
        simp [h10]
        exact ⟨rfl, rfl, rfl⟩
      · right; right; right
        refine ⟨rfl, h10, ?_⟩
        unfold Cursor.next_lfn
        rw [h]
        simp [h10]
    · right; left
      refine ⟨b, rfl, hb, ?_⟩
      unfold Cursor.next_lfn
      rw [h]
      simp [hb]

theorem nextCheck_spec (c : Cursor) (m i : Error) :
    (c.peek = none ∧ nextCheck c m i = (Except.error m, c)) ∨
    (∃ b, c.peek = some b ∧ b ≠ 13 ∧ isContB b = true ∧
      nextCheck c m i = (Except.ok (), c.advance_unchecked)) ∨
    (∃ b, c.peek = some b ∧ b ≠ 13 ∧ isContB b = false ∧
      nextCheck c m i = (Except.error i, c.advance_unchecked)) ∨
    (c.peek = some 13 ∧ c.advance_unchecked.peek = some 10 ∧
      nextCheck c m i = (Except.error i, { c with index := (c.index + 1) % U64, pos := c.pos + 2 })) ∨
    (c.peek = some 13 ∧ c.advance_unchecked.peek ≠ some 10 ∧
      nextCheck c m i = (Except.error i, c.advance_unchecked)) := by
  rcases next_lfn_spec c with ⟨hp, he⟩ | ⟨b, hp, hb, he⟩ | ⟨hp, h10, he⟩ | ⟨hp, h10, he⟩
  · left
    exact ⟨hp, by unfold nextCheck; rw [he]⟩
  · by_cases hc : isContB b = true
    · right; left
      refine ⟨b, hp, hb, hc, ?_⟩
      unfold nextCheck
      rw [he]
      have : ¬(b &&& 192 ≠ 128) := by
        unfold isContB at hc
        simpa using hc
      simp [this]
    · right; right; left
      refine ⟨b, hp, hb, by simpa using hc, ?_⟩
      unfold nextCheck
      rw [he]
      have : b &&& 192 ≠ 128 := by
        unfold isContB at hc
        simpa using hc
      simp [this]
  · right; right; right; left
    refine ⟨hp, h10, ?_⟩
    unfold nextCheck
    rw [he]
    have h1 : (10 : Nat) &&& 192 ≠ 128 := by decide
    simp [h1]
  · right; right; right; right
    refine ⟨hp, h10, ?_⟩
    unfold nextCheck
    rw [he]
    have h1 : (10 : Nat) &&& 192 ≠ 128 := by decide
    simp [h1]

/-! ### Unfolding lemmas for `advance_char`, one per lead-byte width -/

/-- Cursor state after `advance_char`'s unconditional index bump plus the
lead-byte `next`. -/
def afterLead (c : Cursor) : Cursor :=
  { c with index := ((c.index + 1) % U64 + 1) % U64, pos := c.pos + 1 }

theorem advance_char_lead_none {c : Cursor} (h : c.peek = none) :
    c.advance_char = (Except.ok (), { c with index := (c.index + 1) % U64 }) := by
  unfold Cursor.advance_char
  rw [next_of_peek_none (show ({ c with index := (c.index + 1) % U64 } : Cursor).peek = none from h)]

theorem advance_char_w0 {c : Cursor} {b : Nat} (h : c.peek = some b)
    (hw : UTF8_CHAR_WIDTH.getD b 0 = 0) :
    c.advance_char = (Except.error Error.EncounteredContinuationByte, afterLead c) := by
  unfold Cursor.advance_char
  rw [next_of_peek_some (show ({ c with index := (c.index + 1) % U64 } : Cursor).peek = some b from h)]
  simp only [hw]
  rfl

theorem advance_char_w1 {c : Cursor} {b : Nat} (h : c.peek = some b)
    (hw : UTF8_CHAR_WIDTH.getD b 0 = 1) :
    c.advance_char =
      if b = 13 ∧ (afterLead c).peek = some 10 then (Except.ok (), (afterLead c).advance_unchecked)
      else (Except.ok (), afterLead c) := by
  unfold Cursor.advance_char
  rw [next_of_peek_some (show ({ c with index := (c.index + 1) % U64 } : Cursor).peek = some b from h)]
  simp only [hw]
  rfl

theorem advance_char_w2 {c : Cursor} {b : Nat} (h : c.peek = some b)
    (hw : UTF8_CHAR_WIDTH.getD b 0 = 2) :
    c.advance_char =
      afterOk (nextCheck (afterLead c) Error.Missing2ndOf2 Error.Invalid2ndOf2) (fun c2 =>
        (Except.ok (), c2)) := by
  unfold Cursor.advance_char
  rw [next_of_peek_some (show ({ c with index := (c.index + 1) % U64 } : Cursor).peek = some b from h)]
  simp only [hw]
  rfl

theorem advance_char_w3 {c : Cursor} {b : Nat} (h : c.peek = some b)
    (hw : UTF8_CHAR_WIDTH.getD b 0 = 3) :
    c.advance_char =
      afterOk (nextCheck (afterLead c) Error.Missing2ndOf3 Error.Invalid2ndOf3) (fun c2 =>
        afterOk (nextCheck c2 Error.Missing3rdOf3 Error.Invalid3rdOf3) (fun c3 =>
          (Except.ok (), c3))) := by
  unfold Cursor.advance_char
  rw [next_of_peek_some (show ({ c with index := (c.index + 1) % U64 } : Cursor).peek = some b from h)]
  simp only [hw]
  rfl

theorem advance_char_w4 {c : Cursor} {b : Nat} (h : c.peek = some b)
    (hw : UTF8_CHAR_WIDTH.getD b 0 = 4) :
    c.advance_char =
      afterOk (nextCheck (afterLead c) Error.Missing2ndOf4 Error.Invalid2ndOf4) (fun c2 =>
        afterOk (nextCheck c2 Error.Missing3rdOf4 Error.Invalid3rdOf4) (fun c3 =>
          afterOk (nextCheck c3 Error.Missing4thOf4 Error.Invalid4thOf4) (fun c4 =>
            (Except.ok (), c4)))) := by
  unfold Cursor.advance_char
  rw [next_of_peek_some (show ({ c with index := (c.index + 1) % U64 } : Cursor).peek = some b from h)]
  simp only [hw]
  rfl

set_option maxRecDepth 4096 in
/-- The width table holds only the values 0 to 4. -/
theorem width_le_four (b : Nat) : UTF8_CHAR_WIDTH.getD b 0 ≤ 4 := by
  by_cases hb : b < 256
  · exact (show ∀ b' < 256, UTF8_CHAR_WIDTH.getD b' 0 ≤ 4 by decide) b hb
  · have hlen : UTF8_CHAR_WIDTH.length = 256 := by rfl
    rw [List.getD_eq_default _ _ (by omega)]
    decide

set_option maxRecDepth 8192 in
/-- C9: the width table maps a lead byte to 0 exactly for the continuation
bytes 0x80–0xBF together with 0xC0, 0xC1 and 0xF5–0xFF; whenever the next
byte is such a byte, `advance_char` fails with `EncounteredContinuationByte`
and never with any other error kind. -/
theorem c9_width_zero_lead (b : Nat) (hb : b < 256) (c : Cursor) (hpeek : c.peek = some b) :
    (UTF8_CHAR_WIDTH.getD b 0 = 0 ↔
      ((128 ≤ b ∧ b ≤ 191) ∨ b = 192 ∨ b = 193 ∨ (245 ≤ b ∧ b ≤ 255))) ∧
    (UTF8_CHAR_WIDTH.getD b 0 = 0 →
      (Cursor.advance_char c).1 = Except.error Error.EncounteredContinuationByte) := by
  constructor
  · exact (show ∀ b' < 256, (UTF8_CHAR_WIDTH.getD b' 0 = 0 ↔
      ((128 ≤ b' ∧ b' ≤ 191) ∨ b' = 192 ∨ b' = 193 ∨ (245 ≤ b' ∧ b' ≤ 255))) by decide) b hb
  · intro hw
    rw [advance_char_w0 hpeek hw]

set_option maxRecDepth 8192 in
/-- Witness for C9, at the continuation byte 0x80 over the buffer `[0x80]`. -/
theorem c9_width_zero_lead_witness :
    (128 < 256 ∧ (Cursor.new [128]).peek = some 128 ∧ UTF8_CHAR_WIDTH.getD 128 0 = 0) ∧
    (Cursor.advance_char (Cursor.new [128])).1 = Except.error Error.EncounteredContinuationByte :=
  ⟨⟨by decide, rfl, by decide⟩,
    (c9_width_zero_lead 128 (by decide) (Cursor.new [128]) rfl).2 (by decide)⟩

/-! ### Buffer preservation and position bounds for every checked operation -/

/-- A cursor state over the fixed buffer `B` with its position inside
`[0, B.length]`. -/
def CursorInv (B : List Nat) (c : Cursor) : Prop :=
  c.buf = B ∧ c.pos ≤ B.length

theorem inv_advance_unchecked {B : List Nat} {c : Cursor} (h : c.buf = B)
    (hlt : c.pos < B.length) : CursorInv B c.advance_unchecked := by
  exact ⟨h, by unfold Cursor.advance_unchecked; simpa using hlt⟩

theorem inv_next_lfn {B : List Nat} {c : Cursor} (h : CursorInv B c) : CursorInv B c.next_lfn.2 := by
  rcases next_lfn_spec c with ⟨hp, he⟩ | ⟨b, hp, hb, he⟩ | ⟨hp, h10, he⟩ | ⟨hp, h10, he⟩ <;>
    rw [he]
  · exact h
  · have := (peek_some_iff.mp hp).1
    exact inv_advance_unchecked h.1 (h.1 ▸ this)
  · have h2 := (peek_some_iff.mp h10).1
    unfold Cursor.advance_unchecked at h2
    simp at h2
    have hb2 : c.pos + 1 < B.length := h.1 ▸ h2
    exact ⟨h.1, by simp; omega⟩
  · have := (peek_some_iff.mp hp).1
    exact inv_advance_unchecked h.1 (h.1 ▸ this)

theorem inv_nextCheck {B : List Nat} {c : Cursor} (m i : Error) (h : CursorInv B c) :
    CursorInv B (nextCheck c m i).2 := by
  rcases nextCheck_spec c m i with ⟨hp, he⟩ | ⟨b, hp, hb, hc, he⟩ | ⟨b, hp, hb, hc, he⟩ |
    ⟨hp, h10, he⟩ | ⟨hp, h10, he⟩ <;> rw [he]
  · exact h
  · exact inv_advance_unchecked h.1 (h.1 ▸ (peek_some_iff.mp hp).1)
  · exact inv_advance_unchecked h.1 (h.1 ▸ (peek_some_iff.mp hp).1)
  · have h2 := (peek_some_iff.mp h10).1
    unfold Cursor.advance_unchecked at h2
    simp at h2
    have hb2 : c.pos + 1 < B.length := h.1 ▸ h2
    exact ⟨h.1, by simp; omega⟩
  · exact inv_advance_unchecked h.1 (h.1 ▸ (peek_some_iff.mp hp).1)

theorem inv_afterOk {B : List Nat} {r : Except Error Unit × Cursor}
    {f : Cursor → Except Error Unit × Cursor} (hr : CursorInv B r.2)
    (hf : ∀ d, CursorInv B d → CursorInv B (f d).2) : CursorInv B (afterOk r f).2 := by
  rcases r with ⟨res, s⟩
  cases res with
  | error e => exact hr
  | ok u => exact hf s hr

theorem inv_advance_char {B : List Nat} {c : Cursor} (h : CursorInv B c) :
    CursorInv B c.advance_char.2 := by
  cases hp : c.peek with
  | none =>
    rw [advance_char_lead_none hp]
    exact ⟨h.1, h.2⟩
  | some b =>
    have hlt : c.pos < B.length := h.1 ▸ (peek_some_iff.mp hp).1
    have hlead : CursorInv B (afterLead c) := ⟨h.1, by unfold afterLead; simpa using hlt⟩
    have hw4 := width_le_four b
    have : UTF8_CHAR_WIDTH.getD b 0 = 0 ∨ UTF8_CHAR_WIDTH.getD b 0 = 1 ∨
        UTF8_CHAR_WIDTH.getD b 0 = 2 ∨ UTF8_CHAR_WIDTH.getD b 0 = 3 ∨
        UTF8_CHAR_WIDTH.getD b 0 = 4 := by omega
    rcases this with hw | hw | hw | hw | hw
    · rw [advance_char_w0 hp hw]
      exact hlead
    · rw [advance_char_w1 hp hw]
      by_cases hcond : b = 13 ∧ (afterLead c).peek = some 10
      · rw [if_pos hcond]
        exact inv_advance_unchecked hlead.1 (hlead.1 ▸ (peek_some_iff.mp hcond.2).1)
      · rw [if_neg hcond]
        exact hlead
    · rw [advance_char_w2 hp hw]
      exact inv_afterOk (inv_nextCheck _ _ hlead) (fun d hd => hd)
    · rw [advance_char_w3 hp hw]
      exact inv_afterOk (inv_nextCheck _ _ hlead) (fun d hd =>
        inv_afterOk (inv_nextCheck _ _ hd) (fun d2 hd2 => hd2))
    · rw [advance_char_w4 hp hw]
      exact inv_afterOk (inv_nextCheck _ _ hlead) (fun d hd =>
        inv_afterOk (inv_nextCheck _ _ hd) (fun d2 hd2 =>
          inv_afterOk (inv_nextCheck _ _ hd2) (fun d3 hd3 => hd3)))

theorem inv_applyOp {B : List Nat} {c : Cursor} (h : CursorInv B c) (op : Op) :
    CursorInv B (applyOp c op) := by
  cases op with
  | peek => exact h
  | next =>
    unfold applyOp Cursor.next
    by_cases hn : c.has_next
    · simp only [hn]
      unfold Cursor.has_next at hn
      simp at hn
      exact inv_advance_unchecked h.1 (h.1 ▸ hn)
    · simp only [hn]
      simpa using h
  | advance =>
    unfold applyOp Cursor.advance
    by_cases hn : c.has_next
    · simp only [if_pos hn]
      unfold Cursor.has_next at hn
      simp at hn
      exact inv_advance_unchecked h.1 (h.1 ▸ hn)
    · simp only [if_neg hn]
      exact h
  | rewind =>
    unfold applyOp Cursor.rewind Cursor.rewind_unchecked
    by_cases hn : c.can_rewind
    · simp only [if_pos hn]
      obtain ⟨h1, h2⟩ := h
      exact ⟨h1, by simp; omega⟩
    · simp only [if_neg hn]
      exact h
  | next_lfn => exact inv_next_lfn h
  | rewind_lfn =>
    unfold applyOp Cursor.rewind_lfn
    by_cases hn : c.can_rewind
    · simp only [if_pos hn]
      obtain ⟨h1, h2⟩ := h
      split
      · exact ⟨h1, by simp; omega⟩
      · exact ⟨h1, by simp; omega⟩
    · simp only [if_neg hn]
      exact h
  | advance_char => exact inv_advance_char h
  | record => exact h

/-- C8: starting from any cursor whose position is inside the buffer, every
sequence of checked public operations (`peek`, `next`, `advance`, `rewind`,
`next_lfn`, `rewind_lfn`, `advance_char`, recording) keeps the buffer
unchanged and the position within `[first, end]`, i.e. within
`[0, buf.length]` in offset form. -/
theorem c8_pos_invariant (c : Cursor) (h : c.pos ≤ c.buf.length) (ops : List Op) :
    (runOps c ops).buf = c.buf ∧ (runOps c ops).pos ≤ c.buf.length := by
  suffices hgen : ∀ (ops : List Op) (d : Cursor), CursorInv c.buf d → CursorInv c.buf (runOps d ops) by
    exact hgen ops c ⟨rfl, h⟩
  intro ops
  induction ops with
  | nil => exact fun d hd => hd
  | cons op rest ih =>
    intro d hd
    exact ih _ (inv_applyOp hd op)

/-- Witness for C8: a concrete run over `[0x0D, 0x0A]`. -/
theorem c8_pos_invariant_witness :
    ((Cursor.new [13, 10]).pos ≤ (Cursor.new [13, 10]).buf.length) ∧
    (runOps (Cursor.new [13, 10])
        [Op.next_lfn, Op.rewind, Op.rewind, Op.advance_char, Op.rewind_lfn]).buf = [13, 10] ∧
    (runOps (Cursor.new [13, 10])
        [Op.next_lfn, Op.rewind, Op.rewind, Op.advance_char, Op.rewind_lfn]).pos ≤ 2 :=
  ⟨by decide,
   (c8_pos_invariant (Cursor.new [13, 10]) (by decide)
      [Op.next_lfn, Op.rewind, Op.rewind, Op.advance_char, Op.rewind_lfn]).1,
   (c8_pos_invariant (Cursor.new [13, 10]) (by decide)
      [Op.next_lfn, Op.rewind, Op.rewind, Op.advance_char, Op.rewind_lfn]).2⟩

/-! ### Chain lemmas for the continuation-byte reads -/

theorem afterOk_nextCheck_ok {c : Cursor} {m i : Error}
    {f : Cursor → Except Error Unit × Cursor} {c' : Cursor}
    (h : afterOk (nextCheck c m i) f = (Except.ok (), c')) :
    ∃ b, c.peek = some b ∧ b ≠ 13 ∧ isContB b = true ∧
      f c.advance_unchecked = (Except.ok (), c') := by
  rcases nextCheck_spec c m i with ⟨hp, he⟩ | ⟨b, hp, hb, hc, he⟩ | ⟨b, hp, hb, hc, he⟩ |
    ⟨hp, h10, he⟩ | ⟨hp, h10, he⟩ <;> rw [he] at h <;>
    simp only [afterOk] at h
  · exact absurd (congrArg Prod.fst h) (by simp)
  · exact ⟨b, hp, hb, hc, h⟩
  · exact absurd (congrArg Prod.fst h) (by simp)
  · exact absurd (congrArg Prod.fst h) (by simp)
  · exact absurd (congrArg Prod.fst h) (by simp)

theorem afterOk_error_cases {r : Except Error Unit × Cursor}
    {f : Cursor → Except Error Unit × Cursor} {e : Error} {c' : Cursor}
    (h : afterOk r f = (Except.error e, c')) :
    r = (Except.error e, c') ∨ (∃ d, r = (Except.ok (), d) ∧ f d = (Except.error e, c')) := by
  rcases r with ⟨res, s⟩
  cases res with
  | error e2 =>
    simp only [afterOk] at h
    left
    rw [← h]
  | ok u =>
    cases u
    simp only [afterOk] at h
    exact Or.inr ⟨s, rfl, h⟩

/-- C7 (amended): whatever `advance_char` accepts on a fresh cursor while
consuming bytes matches the lead/continuation pattern only: a lead byte of
table width `w` followed, for `w ≥ 2`, by `w - 1` bytes whose top two bits
are `10` (consuming exactly `w` bytes), or a one-byte lead — with CR
followed by LF consuming the LF as well.  Surrogate and overlong encodings
match this pattern too, so acceptance does not imply UTF-8 well-formedness
(see the counterexample for the claim). -/
theorem c7_accepted_shape (buf : List Nat) (c' : Cursor)
    (h : Cursor.advance_char (Cursor.new buf) = (Except.ok (), c')) :
    c'.pos = 0 ∨
    (1 ≤ UTF8_CHAR_WIDTH.getD (buf.getD 0 0) 0 ∧
      ((UTF8_CHAR_WIDTH.getD (buf.getD 0 0) 0 = 1 ∧
         (c'.pos = 1 ∨ (c'.pos = 2 ∧ buf.getD 0 0 = 13 ∧ buf.getD 1 0 = 10))) ∨
       (2 ≤ UTF8_CHAR_WIDTH.getD (buf.getD 0 0) 0 ∧
         c'.pos = UTF8_CHAR_WIDTH.getD (buf.getD 0 0) 0 ∧
         (∀ i, 1 ≤ i → i < UTF8_CHAR_WIDTH.getD (buf.getD 0 0) 0 →
           isContB (buf.getD i 0) = true)))) := by
  cases hp : (Cursor.new buf).peek with
  | none =>
    rw [advance_char_lead_none hp] at h
    injection h with h1 h2
    left
    rw [← h2]
    rfl
  | some b =>
    have hb := peek_some_iff.mp hp
    simp only [Cursor.new] at hb
    rw [hb.2]
    have hw4 := width_le_four b
    have hcases : UTF8_CHAR_WIDTH.getD b 0 = 0 ∨ UTF8_CHAR_WIDTH.getD b 0 = 1 ∨
        UTF8_CHAR_WIDTH.getD b 0 = 2 ∨ UTF8_CHAR_WIDTH.getD b 0 = 3 ∨
        UTF8_CHAR_WIDTH.getD b 0 = 4 := by omega
    rcases hcases with hw | hw | hw | hw | hw
    · rw [advance_char_w0 hp hw] at h
      injection h with h1 h2
      exact absurd h1 (by simp)
    · rw [advance_char_w1 hp hw] at h
      right
      refine ⟨by omega, Or.inl ⟨hw, ?_⟩⟩
      by_cases hcond : b = 13 ∧ (afterLead (Cursor.new buf)).peek = some 10
      · rw [if_pos hcond] at h
        injection h with h1 h2
        right
        have h10 := peek_some_iff.mp hcond.2
        simp only [afterLead, Cursor.new] at h10
        exact ⟨by rw [← h2]; rfl, hcond.1, h10.2⟩
      · rw [if_neg hcond] at h
        injection h with h1 h2
        left
        rw [← h2]
        rfl
    · rw [advance_char_w2 hp hw] at h
      obtain ⟨b2, hp2, hb2, hc2, hf⟩ := afterOk_nextCheck_ok h
      injection hf with h1 h2
      have hread2 := peek_some_iff.mp hp2
      simp only [afterLead, Cursor.new] at hread2
      right
      refine ⟨by omega, Or.inr ⟨by omega, ?_, ?_⟩⟩
      · rw [← h2, hw]
        rfl
      · intro i hi1 hi2
        have : i = 1 := by omega
        subst this
        rw [hread2.2]
        exact hc2
    · rw [advance_char_w3 hp hw] at h
      obtain ⟨b2, hp2, hb2, hc2, hf⟩ := afterOk_nextCheck_ok h
      obtain ⟨b3, hp3, hb3, hc3, hf2⟩ := afterOk_nextCheck_ok hf
      injection hf2 with h1 h2
      have hread2 := peek_some_iff.mp hp2
      simp only [afterLead, Cursor.new] at hread2
      have hread3 := peek_some_iff.mp hp3
      simp only [afterLead, Cursor.new, Cursor.advance_unchecked] at hread3
      right
      refine ⟨by omega, Or.inr ⟨by omega, ?_, ?_⟩⟩
      · rw [← h2, hw]
        rfl
      · intro i hi1 hi2
        have : i = 1 ∨ i = 2 := by omega
        rcases this with rfl | rfl
        · rw [hread2.2]
          exact hc2
        · rw [hread3.2]
          exact hc3
    · rw [advance_char_w4 hp hw] at h
      obtain ⟨b2, hp2, hb2, hc2, hf⟩ := afterOk_nextCheck_ok h
      obtain ⟨b3, hp3, hb3, hc3, hf2⟩ := afterOk_nextCheck_ok hf
      obtain ⟨b4, hp4, hb4, hc4, hf3⟩ := afterOk_nextCheck_ok hf2
      injection hf3 with h1 h2
      have hread2 := peek_some_iff.mp hp2
      simp only [afterLead, Cursor.new] at hread2
      have hread3 := peek_some_iff.mp hp3
      simp only [afterLead, Cursor.new, Cursor.advance_unchecked] at hread3
      have hread4 := peek_some_iff.mp hp4
      simp only [afterLead, Cursor.new, Cursor.advance_unchecked] at hread4
      right
      refine ⟨by omega, Or.inr ⟨by omega, ?_, ?_⟩⟩
      · rw [← h2, hw]
        rfl
      · intro i hi1 hi2
        have : i = 1 ∨ i = 2 ∨ i = 3 := by omega
        rcases this with rfl | rfl | rfl
        · rw [hread2.2]
          exact hc2
        · rw [hread3.2]
          exact hc3
        · rw [hread4.2]
          exact hc4

theorem nextCheck_ok_chr {c : Cursor} {m i : Error} {c' : Cursor}
    (h : nextCheck c m i = (Except.ok (), c')) :
    c' = c.advance_unchecked ∧ c.pos < c.buf.length ∧
      isContB (c.buf.getD c.pos 0) = true := by
  rcases nextCheck_spec c m i with ⟨hp, he⟩ | ⟨b, hp, hb, hc, he⟩ | ⟨b, hp, hb, hc, he⟩ |
    ⟨hp, h10, he⟩ | ⟨hp, h10, he⟩ <;> rw [he] at h <;> injection h with h1 h2
  · exact absurd h1 (by simp)
  · obtain ⟨hlt, hgd⟩ := peek_some_iff.mp hp
    exact ⟨h2.symm, hlt, hgd ▸ hc⟩
  · exact absurd h1 (by simp)
  · exact absurd h1 (by simp)
  · exact absurd h1 (by simp)

theorem nextCheck_error_chr {c : Cursor} {m i e : Error} {c' : Cursor}
    (hcpos : c.pos ≤ c.buf.length)
    (h : nextCheck c m i = (Except.error e, c')) :
    c'.buf = c.buf ∧
    ((e = m ∧ c' = c ∧ c.pos = c.buf.length) ∨
     (e = i ∧ ((c'.pos = c.pos + 1 ∧ isContB (c.buf.getD c.pos 0) = false) ∨
               (c'.pos = c.pos + 2 ∧ c.buf.getD c.pos 0 = 13 ∧
                 c.buf.getD (c.pos + 1) 0 = 10)))) := by
  rcases nextCheck_spec c m i with ⟨hp, he⟩ | ⟨b, hp, hb, hc, he⟩ | ⟨b, hp, hb, hc, he⟩ |
    ⟨hp, h10, he⟩ | ⟨hp, h10, he⟩ <;> rw [he] at h <;> injection h with h1 h2
  · have hlen := peek_none_iff.mp hp
    injection h1 with h1
    exact ⟨h2 ▸ rfl, Or.inl ⟨h1.symm, h2.symm, by omega⟩⟩
  · exact absurd h1 (by simp)
  · obtain ⟨hlt, hgd⟩ := peek_some_iff.mp hp
    injection h1 with h1
    refine ⟨h2 ▸ rfl, Or.inr ⟨h1.symm, Or.inl ⟨?_, hgd ▸ hc⟩⟩⟩
    rw [← h2]
    rfl
  · obtain ⟨hlt, hgd⟩ := peek_some_iff.mp hp
    obtain ⟨hlt2, hgd2⟩ := peek_some_iff.mp h10
    injection h1 with h1
    refine ⟨h2 ▸ rfl, Or.inr ⟨h1.symm, Or.inr ⟨?_, hgd, hgd2⟩⟩⟩
    rw [← h2]
  · obtain ⟨hlt, hgd⟩ := peek_some_iff.mp hp
    injection h1 with h1
    refine ⟨h2 ▸ rfl, Or.inr ⟨h1.symm, Or.inl ⟨?_, ?_⟩⟩⟩
    · rw [← h2]
      rfl
    · rw [hgd]
      decide

/-- C5 (amended): whenever `advance_char` fails, it has consumed nothing
beyond the failing read: for every `Missing*` error the cursor is at the end
of the buffer; for `EncounteredContinuationByte` it is one byte past the bad
lead byte; for every `Invalid*` error there is a position `s` past the lead
byte such that the cursor ends either one byte past the failing
non-continuation byte at `s`, or — when the failing byte at `s` is a CR
immediately followed by LF, which normalization consumes as a pair — two
bytes past `s`. -/
theorem c5_error_positions (c c' : Cursor) (e : Error)
    (h : c.advance_char = (Except.error e, c')) :
    c'.buf = c.buf ∧
    (e.isMissing = true → c'.pos = c.buf.length) ∧
    (e = Error.EncounteredContinuationByte → c'.pos = c.pos + 1) ∧
    (e.isInvalid = true → ∃ s, c.pos < s ∧
      ((c'.pos = s + 1 ∧ isContB (c.buf.getD s 0) = false) ∨
       (c'.pos = s + 2 ∧ c.buf.getD s 0 = 13 ∧ c.buf.getD (s + 1) 0 = 10))) := by
  cases hp : c.peek with
  | none =>
    rw [advance_char_lead_none hp] at h
    injection h with h1 h2
    exact absurd h1 (by simp)
  | some b =>
    have hblt : c.pos < c.buf.length := (peek_some_iff.mp hp).1
    have hleadle : (afterLead c).pos ≤ (afterLead c).buf.length := by
      show c.pos + 1 ≤ c.buf.length
      omega
    have hw4 := width_le_four b
    have hcases : UTF8_CHAR_WIDTH.getD b 0 = 0 ∨ UTF8_CHAR_WIDTH.getD b 0 = 1 ∨
        UTF8_CHAR_WIDTH.getD b 0 = 2 ∨ UTF8_CHAR_WIDTH.getD b 0 = 3 ∨
        UTF8_CHAR_WIDTH.getD b 0 = 4 := by omega
    rcases hcases with hw | hw | hw | hw | hw
    · rw [advance_char_w0 hp hw] at h
      injection h with h1 h2
      injection h1 with h1
      subst h1
      refine ⟨h2 ▸ rfl, ?_, ?_, ?_⟩
      · intro hm
        exact absurd hm (by decide)
      · intro _
        rw [← h2]
        rfl
      · intro hi
        exact absurd hi (by decide)
    · rw [advance_char_w1 hp hw] at h
      by_cases hcond : b = 13 ∧ (afterLead c).peek = some 10
      · rw [if_pos hcond] at h
        injection h with h1 h2
        exact absurd h1 (by simp)
      · rw [if_neg hcond] at h
        injection h with h1 h2
        exact absurd h1 (by simp)
    · rw [advance_char_w2 hp hw] at h
      rcases afterOk_error_cases h with hA | ⟨d, hok, hfd⟩
      · obtain ⟨hbuf, hcase⟩ := nextCheck_error_chr hleadle hA
        rcases hcase with ⟨he, hc', hlen⟩ | ⟨he, hdisj⟩
        · subst he
          refine ⟨hbuf, ?_, ?_, ?_⟩
          · intro _
            rw [hc']
            exact hlen
          · intro hecb
            exact absurd hecb (by decide)
          · intro hi
            exact absurd hi (by decide)
        · subst he
          refine ⟨hbuf, ?_, ?_, ?_⟩
          · intro hm
            exact absurd hm (by decide)
          · intro hecb
            exact absurd hecb (by decide)
          · intro _
            exact ⟨c.pos + 1, by omega, hdisj⟩
      · injection hfd with h1 h2
        exact absurd h1 (by simp)
    · rw [advance_char_w3 hp hw] at h
      rcases afterOk_error_cases h with hA | ⟨d, hok, hfd⟩
      · obtain ⟨hbuf, hcase⟩ := nextCheck_error_chr hleadle hA
        rcases hcase with ⟨he, hc', hlen⟩ | ⟨he, hdisj⟩
        · subst he
          refine ⟨hbuf, ?_, ?_, ?_⟩
          · intro _
            rw [hc']
            exact hlen
          · intro hecb
            exact absurd hecb (by decide)
          · intro hi
            exact absurd hi (by decide)
        · subst he
          refine ⟨hbuf, ?_, ?_, ?_⟩
          · intro hm
            exact absurd hm (by decide)
          · intro hecb
            exact absurd hecb (by decide)
          · intro _
            exact ⟨c.pos + 1, by omega, hdisj⟩
      · obtain ⟨hd, hlt1, hcont1⟩ := nextCheck_ok_chr hok
        subst hd
        have hle2 : ((afterLead c).advance_unchecked).pos ≤
            ((afterLead c).advance_unchecked).buf.length := by
          show c.pos + 1 + 1 ≤ c.buf.length
          have : c.pos + 1 < c.buf.length := hlt1
          omega
        rcases afterOk_error_cases hfd with hA2 | ⟨d2, hok2, hfd2⟩
        · obtain ⟨hbuf, hcase⟩ := nextCheck_error_chr hle2 hA2
          rcases hcase with ⟨he, hc', hlen⟩ | ⟨he, hdisj⟩
          · subst he
            refine ⟨hbuf, ?_, ?_, ?_⟩
            · intro _
              rw [hc']
              exact hlen
            · intro hecb
              exact absurd hecb (by decide)
            · intro hi
              exact absurd hi (by decide)
          · subst he
            refine ⟨hbuf, ?_, ?_, ?_⟩
            · intro hm
              exact absurd hm (by decide)
            · intro hecb
              exact absurd hecb (by decide)
            · intro _
              exact ⟨c.pos + 2, by omega, hdisj⟩
        · injection hfd2 with h1 h2
          exact absurd h1 (by simp)
    · rw [advance_char_w4 hp hw] at h
      rcases afterOk_error_cases h with hA | ⟨d, hok, hfd⟩
      · obtain ⟨hbuf, hcase⟩ := nextCheck_error_chr hleadle hA
        rcases hcase with ⟨he, hc', hlen⟩ | ⟨he, hdisj⟩
        · subst he
          refine ⟨hbuf, ?_, ?_, ?_⟩
          · intro _
            rw [hc']
            exact hlen
          · intro hecb
            exact absurd hecb (by decide)
          · intro hi
            exact absurd hi (by decide)
        · subst he
          refine ⟨hbuf, ?_, ?_, ?_⟩
          · intro hm
            exact absurd hm (by decide)
          · intro hecb
            exact absurd hecb (by decide)
          · intro _
            exact ⟨c.pos + 1, by omega, hdisj⟩
      · obtain ⟨hd, hlt1, hcont1⟩ := nextCheck_ok_chr hok
        subst hd
        have hle2 : ((afterLead c).advance_unchecked).pos ≤
            ((afterLead c).advance_unchecked).buf.length := by
          show c.pos + 1 + 1 ≤ c.buf.length
          have : c.pos + 1 < c.buf.length := hlt1
          omega
        rcases afterOk_error_cases hfd with hA2 | ⟨d2, hok2, hfd2⟩
        · obtain ⟨hbuf, hcase⟩ := nextCheck_error_chr hle2 hA2
          rcases hcase with ⟨he, hc', hlen⟩ | ⟨he, hdisj⟩
          · subst he
            refine ⟨hbuf, ?_, ?_, ?_⟩
            · intro _
              rw [hc']
              exact hlen
            · intro hecb
              exact absurd hecb (by decide)
            · intro hi
              exact absurd hi (by decide)
          · subst he
            refine ⟨hbuf, ?_, ?_, ?_⟩
            · intro hm
              exact absurd hm (by decide)
            · intro hecb
              exact absurd hecb (by decide)
            · intro _
              exact ⟨c.pos + 2, by omega, hdisj⟩
        · obtain ⟨hd2, hlt2, hcont2⟩ := nextCheck_ok_chr hok2
          subst hd2
          have hle3 : (((afterLead c).advance_unchecked).advance_unchecked).pos ≤
              (((afterLead c).advance_unchecked).advance_unchecked).buf.length := by
            show c.pos + 1 + 1 + 1 ≤ c.buf.length
            have : c.pos + 1 + 1 < c.buf.length := hlt2
            omega
          rcases afterOk_error_cases hfd2 with hA3 | ⟨d3, hok3, hfd3⟩
          · obtain ⟨hbuf, hcase⟩ := nextCheck_error_chr hle3 hA3
            rcases hcase with ⟨he, hc', hlen⟩ | ⟨he, hdisj⟩
            · subst he
              refine ⟨hbuf, ?_, ?_, ?_⟩
              · intro _
                rw [hc']
                exact hlen
              · intro hecb
                exact absurd hecb (by decide)
              · intro hi
                exact absurd hi (by decide)
            · subst he
              refine ⟨hbuf, ?_, ?_, ?_⟩
              · intro hm
                exact absurd hm (by decide)
              · intro hecb
                exact absurd hecb (by decide)
              · intro _
                exact ⟨c.pos + 3, by omega, hdisj⟩
          · injection hfd3 with h1 h2
            exact absurd h1 (by simp)

set_option maxRecDepth 8192 in
/-- Witness for C5, at the truncated two-byte sequence `[0xC2]`. -/
theorem c5_error_positions_witness :
    Cursor.advance_char (Cursor.new [194]) =
      (Except.error Error.Missing2ndOf2, { buf := [194], pos := 1, index := 2 }) ∧
    ({ buf := [194], pos := 1, index := 2 } : Cursor).pos = ([194] : List Nat).length := by
  refine ⟨rfl, ?_⟩
  have h := c5_error_positions (Cursor.new [194]) { buf := [194], pos := 1, index := 2 }
    Error.Missing2ndOf2 rfl
  exact h.2.1 rfl

/-! ### The raw-reader variant reads the same units except after an invalid CRLF -/

theorem nextCheckRaw_of_peek_none {c : Cursor} {m i : Error} (hp : c.peek = none) :
    nextCheckRaw c m i = (Except.error m, c) := by
  unfold nextCheckRaw
  rw [next_of_peek_none hp]

theorem nextCheckRaw_of_peek_some {c : Cursor} {b : Nat} {m i : Error} (hp : c.peek = some b) :
    nextCheckRaw c m i =
      if b &&& 192 ≠ 128 then (Except.error i, c.advance_unchecked)
      else (Except.ok (), c.advance_unchecked) := by
  unfold nextCheckRaw
  rw [next_of_peek_some hp]

theorem nextCheck_raw_rel (c : Cursor) (m i : Error) :
    (nextCheck c m i).1 = (nextCheckRaw c m i).1 ∧
    (nextCheck c m i).2.index = (nextCheckRaw c m i).2.index ∧
    ((nextCheck c m i).1 = Except.ok () → (nextCheck c m i).2 = (nextCheckRaw c m i).2) := by
  rcases nextCheck_spec c m i with ⟨hp, he⟩ | ⟨b, hp, hb, hc, he⟩ | ⟨b, hp, hb, hc, he⟩ |
    ⟨hp, h10, he⟩ | ⟨hp, h10, he⟩
  · rw [he, nextCheckRaw_of_peek_none hp]
    exact ⟨rfl, rfl, fun _ => rfl⟩
  · rw [he, nextCheckRaw_of_peek_some hp]
    have hcc : ¬(b &&& 192 ≠ 128) := by
      unfold isContB at hc
      simpa using hc
    rw [if_neg hcc]
    exact ⟨rfl, rfl, fun _ => rfl⟩
  · rw [he, nextCheckRaw_of_peek_some hp]
    have hcc : b &&& 192 ≠ 128 := by
      unfold isContB at hc
      simpa using hc
    rw [if_pos hcc]
    exact ⟨rfl, rfl, fun habs => absurd habs (by simp)⟩
  · rw [he, nextCheckRaw_of_peek_some hp]
    rw [if_pos (show (13 : Nat) &&& 192 ≠ 128 by decide)]
    exact ⟨rfl, rfl, fun habs => absurd habs (by simp)⟩
  · rw [he, nextCheckRaw_of_peek_some hp]
    rw [if_pos (show (13 : Nat) &&& 192 ≠ 128 by decide)]
    exact ⟨rfl, rfl, fun habs => absurd habs (by simp)⟩

theorem afterOk_rel {p q : Except Error Unit × Cursor}
    {f g : Cursor → Except Error Unit × Cursor}
    (h1 : p.1 = q.1) (h2 : p.2.index = q.2.index) (h3 : p.1 = Except.ok () → p.2 = q.2)
    (hfg : ∀ d, (f d).1 = (g d).1 ∧ (f d).2.index = (g d).2.index ∧
      ((f d).1 = Except.ok () → (f d).2 = (g d).2)) :
    (afterOk p f).1 = (afterOk q g).1 ∧
    (afterOk p f).2.index = (afterOk q g).2.index ∧
    ((afterOk p f).1 = Except.ok () → (afterOk p f).2 = (afterOk q g).2) := by
  rcases p with ⟨pr, ps⟩
  rcases q with ⟨qr, qs⟩
  cases pr with
  | error e =>
    have hq : qr = Except.error e := h1.symm
    subst hq
    exact ⟨rfl, h2, fun habs => Except.noConfusion habs⟩
  | ok u =>
    cases u
    have hq : qr = Except.ok () := h1.symm
    subst hq
    have hps : ps = qs := h3 rfl
    subst hps
    exact hfg ps

theorem advance_char_raw_lead_none {c : Cursor} (h : c.peek = none) :
    c.advance_char_raw = (Except.ok (), { c with index := (c.index + 1) % U64 }) := by
  unfold Cursor.advance_char_raw
  rw [next_of_peek_none (show ({ c with index := (c.index + 1) % U64 } : Cursor).peek = none from h)]

theorem advance_char_raw_w0 {c : Cursor} {b : Nat} (h : c.peek = some b)
    (hw : UTF8_CHAR_WIDTH.getD b 0 = 0) :
    c.advance_char_raw = (Except.error Error.EncounteredContinuationByte, afterLead c) := by
  unfold Cursor.advance_char_raw
  rw [next_of_peek_some (show ({ c with index := (c.index + 1) % U64 } : Cursor).peek = some b from h)]
  simp only [hw]
  rfl

theorem advance_char_raw_w1 {c : Cursor} {b : Nat} (h : c.peek = some b)
    (hw : UTF8_CHAR_WIDTH.getD b 0 = 1) :
    c.advance_char_raw =
      if b = 13 ∧ (afterLead c).peek = some 10 then (Except.ok (), (afterLead c).advance_unchecked)
      else (Except.ok (), afterLead c) := by
  unfold Cursor.advance_char_raw
  rw [next_of_peek_some (show ({ c with index := (c.index + 1) % U64 } : Cursor).peek = some b from h)]
  simp only [hw]
  rfl

theorem advance_char_raw_w2 {c : Cursor} {b : Nat} (h : c.peek = some b)
    (hw : UTF8_CHAR_WIDTH.getD b 0 = 2) :
    c.advance_char_raw =
      afterOk (nextCheckRaw (afterLead c) Error.Missing2ndOf2 Error.Invalid2ndOf2) (fun c2 =>
        (Except.ok (), c2)) := by
  unfold Cursor.advance_char_raw
  rw [next_of_peek_some (show ({ c with index := (c.index + 1) % U64 } : Cursor).peek = some b from h)]
  simp only [hw]
  rfl

theorem advance_char_raw_w3 {c : Cursor} {b : Nat} (h : c.peek = some b)
    (hw : UTF8_CHAR_WIDTH.getD b 0 = 3) :
    c.advance_char_raw =
      afterOk (nextCheckRaw (afterLead c) Error.Missing2ndOf3 Error.Invalid2ndOf3) (fun c2 =>
        afterOk (nextCheckRaw c2 Error.Missing3rdOf3 Error.Invalid3rdOf3) (fun c3 =>
          (Except.ok (), c3))) := by
  unfold Cursor.advance_char_raw
  rw [next_of_peek_some (show ({ c with index := (c.index + 1) % U64 } : Cursor).peek = some b from h)]
  simp only [hw]
  rfl

theorem advance_char_raw_w4 {c : Cursor} {b : Nat} (h : c.peek = some b)
    (hw : UTF8_CHAR_WIDTH.getD b 0 = 4) :
    c.advance_char_raw =
      afterOk (nextCheckRaw (afterLead c) Error.Missing2ndOf4 Error.Invalid2ndOf4) (fun c2 =>
        afterOk (nextCheckRaw c2 Error.Missing3rdOf4 Error.Invalid3rdOf4) (fun c3 =>
          afterOk (nextCheckRaw c3 Error.Missing4thOf4 Error.Invalid4thOf4) (fun c4 =>
            (Except.ok (), c4)))) := by
  unfold Cursor.advance_char_raw
  rw [next_of_peek_some (show ({ c with index := (c.index + 1) % U64 } : Cursor).peek = some b from h)]
  simp only [hw]
  rfl

/-- C6 (amended): replacing the normalizing reader by the raw reader for the
continuation bytes never changes the result of `advance_char` nor the final
`index`; it changes the final position only on some erroring inputs — on
every `Ok` the two variants end in identical states (see the counterexample
for an erroring input where the positions differ). -/
theorem c6_lfn_raw_agree (c : Cursor) :
    c.advance_char.1 = c.advance_char_raw.1 ∧
    c.advance_char.2.index = c.advance_char_raw.2.index ∧
    (c.advance_char.1 = Except.ok () → c.advance_char.2 = c.advance_char_raw.2) := by
  cases hp : c.peek with
  | none =>
    rw [advance_char_lead_none hp, advance_char_raw_lead_none hp]
    exact ⟨rfl, rfl, fun _ => rfl⟩
  | some b =>
    have hw4 := width_le_four b
    have hcases : UTF8_CHAR_WIDTH.getD b 0 = 0 ∨ UTF8_CHAR_WIDTH.getD b 0 = 1 ∨
        UTF8_CHAR_WIDTH.getD b 0 = 2 ∨ UTF8_CHAR_WIDTH.getD b 0 = 3 ∨
        UTF8_CHAR_WIDTH.getD b 0 = 4 := by omega
    rcases hcases with hw | hw | hw | hw | hw
    · rw [advance_char_w0 hp hw, advance_char_raw_w0 hp hw]
      exact ⟨rfl, rfl, fun habs => Except.noConfusion habs⟩
    · rw [advance_char_w1 hp hw, advance_char_raw_w1 hp hw]
      exact ⟨rfl, rfl, fun _ => rfl⟩
    · rw [advance_char_w2 hp hw, advance_char_raw_w2 hp hw]
      exact afterOk_rel (nextCheck_raw_rel _ _ _).1 (nextCheck_raw_rel _ _ _).2.1
        (nextCheck_raw_rel _ _ _).2.2 (fun d => ⟨rfl, rfl, fun _ => rfl⟩)
    · rw [advance_char_w3 hp hw, advance_char_raw_w3 hp hw]
      exact afterOk_rel (nextCheck_raw_rel _ _ _).1 (nextCheck_raw_rel _ _ _).2.1
        (nextCheck_raw_rel _ _ _).2.2 (fun d =>
          afterOk_rel (nextCheck_raw_rel _ _ _).1 (nextCheck_raw_rel _ _ _).2.1
            (nextCheck_raw_rel _ _ _).2.2 (fun d2 => ⟨rfl, rfl, fun _ => rfl⟩))
    · rw [advance_char_w4 hp hw, advance_char_raw_w4 hp hw]
      exact afterOk_rel (nextCheck_raw_rel _ _ _).1 (nextCheck_raw_rel _ _ _).2.1
        (nextCheck_raw_rel _ _ _).2.2 (fun d =>
          afterOk_rel (nextCheck_raw_rel _ _ _).1 (nextCheck_raw_rel _ _ _).2.1
            (nextCheck_raw_rel _ _ _).2.2 (fun d2 =>
              afterOk_rel (nextCheck_raw_rel _ _ _).1 (nextCheck_raw_rel _ _ _).2.1
                (nextCheck_raw_rel _ _ _).2.2 (fun d3 => ⟨rfl, rfl, fun _ => rfl⟩)))

/-- Witness for C6, at the valid two-byte sequence `[0xC2, 0xA9]`. -/
theorem c6_lfn_raw_agree_witness :
    (Cursor.advance_char (Cursor.new [194, 169])).1 =
      (Cursor.advance_char_raw (Cursor.new [194, 169])).1 ∧
    (Cursor.advance_char (Cursor.new [194, 169])).2 =
      (Cursor.advance_char_raw (Cursor.new [194, 169])).2 :=
  ⟨(c6_lfn_raw_agree (Cursor.new [194, 169])).1,
   (c6_lfn_raw_agree (Cursor.new [194, 169])).2.2 rfl⟩

/-! ### Inverting `next_lfn` with `rewind_lfn` -/

theorem rewind_lfn_cases (d : Cursor) :
    d.rewind_lfn.buf = d.buf ∧
    d.rewind_lfn.pos =
      (if 0 < d.pos then
        (if d.buf.getD (d.pos - 1) 0 = 10 ∧ d.pos - 1 ≠ 0 ∧ d.buf.getD (d.pos - 1 - 1) 0 = 13
          then d.pos - 1 - 1 else d.pos - 1)
       else d.pos) := by
  simp only [Cursor.rewind_lfn, Cursor.can_rewind]
  by_cases h0 : 0 < d.pos
  · rw [if_pos (by simpa using h0), if_pos h0]
    split_ifs with hcond
    · exact ⟨rfl, rfl⟩
    · exact ⟨rfl, rfl⟩
  · rw [if_neg (by simpa using h0), if_neg h0]
    exact ⟨rfl, rfl⟩

theorem next_lfn_step_inverse {c : Cursor} {x : Nat}
    (hg : goodPos c.buf c.pos) (h : c.next_lfn.1 = some x) :
    c.next_lfn.2.buf = c.buf ∧
    goodPos c.buf c.next_lfn.2.pos ∧
    (∀ d : Cursor, d.buf = c.buf → d.pos = c.next_lfn.2.pos → d.rewind_lfn.pos = c.pos) := by
  rcases next_lfn_spec c with ⟨hp, he⟩ | ⟨b, hp, hb, he⟩ | ⟨hp, h10, he⟩ | ⟨hp, h10, he⟩
  · rw [he] at h
    exact absurd h (by simp)
  · obtain ⟨hlt, hgd⟩ := peek_some_iff.mp hp
    have hpos2 : c.next_lfn.2.pos = c.pos + 1 := by rw [he]; rfl
    have hbuf2 : c.next_lfn.2.buf = c.buf := by rw [he]; rfl
    refine ⟨hbuf2, ?_, ?_⟩
    · rw [hpos2]
      rintro ⟨h1, h2, h3, h4⟩
      simp only [Nat.add_sub_cancel] at h3
      exact hb (by rw [← hgd, h3])
    · intro d hdb hdp
      rw [hpos2] at hdp
      obtain ⟨hrb, hrp⟩ := rewind_lfn_cases d
      rw [hrp, hdb, hdp]
      rw [if_pos (by omega)]
      have hcond : ¬(c.buf.getD (c.pos + 1 - 1) 0 = 10 ∧ c.pos + 1 - 1 ≠ 0 ∧
          c.buf.getD (c.pos + 1 - 1 - 1) 0 = 13) := by
        simp only [Nat.add_sub_cancel]
        rintro ⟨ha, hb0, hc13⟩
        exact hg ⟨by omega, hlt, hc13, ha⟩
      rw [if_neg hcond]
      omega
  · obtain ⟨hlt, hgd⟩ := peek_some_iff.mp hp
    have hgd2 : c.buf.getD (c.pos + 1) 0 = 10 := by
      have := (peek_some_iff.mp h10).2
      simpa [Cursor.advance_unchecked] using this
    have hlt2 : c.pos + 1 < c.buf.length := by
      have := (peek_some_iff.mp h10).1
      simpa [Cursor.advance_unchecked] using this
    have hpos2 : c.next_lfn.2.pos = c.pos + 2 := by rw [he]
    have hbuf2 : c.next_lfn.2.buf = c.buf := by rw [he]
    refine ⟨hbuf2, ?_, ?_⟩
    · rw [hpos2]
      rintro ⟨h1, h2, h3, h4⟩
      have h3' : c.buf.getD (c.pos + 1) 0 = 13 := by
        simpa using h3
      omega
    · intro d hdb hdp
      rw [hpos2] at hdp
      obtain ⟨hrb, hrp⟩ := rewind_lfn_cases d
      rw [hrp, hdb, hdp]
      rw [if_pos (by omega)]
      have hcond : c.buf.getD (c.pos + 2 - 1) 0 = 10 ∧ c.pos + 2 - 1 ≠ 0 ∧
          c.buf.getD (c.pos + 2 - 1 - 1) 0 = 13 := by
        refine ⟨?_, by omega, ?_⟩
        · show c.buf.getD (c.pos + 1) 0 = 10
          exact hgd2
        · show c.buf.getD c.pos 0 = 13
          exact hgd
      rw [if_pos hcond]
      omega
  · obtain ⟨hlt, hgd⟩ := peek_some_iff.mp hp
    have hno10 : ¬(c.pos + 1 < c.buf.length ∧ c.buf.getD (c.pos + 1) 0 = 10) := by
      intro ⟨ha, hb2⟩
      apply h10
      rw [peek_some_iff]
      exact ⟨by simpa [Cursor.advance_unchecked] using ha,
        by simpa [Cursor.advance_unchecked] using hb2⟩
    have hpos2 : c.next_lfn.2.pos = c.pos + 1 := by rw [he]; rfl
    have hbuf2 : c.next_lfn.2.buf = c.buf := by rw [he]; rfl
    refine ⟨hbuf2, ?_, ?_⟩
    · rw [hpos2]
      rintro ⟨h1, h2, h3, h4⟩
      exact hno10 ⟨h2, h4⟩
    · intro d hdb hdp
      rw [hpos2] at hdp
      obtain ⟨hrb, hrp⟩ := rewind_lfn_cases d
      rw [hrp, hdb, hdp]
      rw [if_pos (by omega)]
      have hcond : ¬(c.buf.getD (c.pos + 1 - 1) 0 = 10 ∧ c.pos + 1 - 1 ≠ 0 ∧
          c.buf.getD (c.pos + 1 - 1 - 1) 0 = 13) := by
        simp only [Nat.add_sub_cancel]
        rintro ⟨ha, hb0, hc13⟩
        rw [hgd] at ha
        exact absurd ha (by decide)
      rw [if_neg hcond]
      omega

theorem rewindLfnN_succ (d : Cursor) (n : Nat) :
    rewindLfnN d (n + 1) = (rewindLfnN d n).rewind_lfn := by
  induction n generalizing d with
  | zero => rfl
  | succ n ih =>
    show rewindLfnN d.rewind_lfn (n + 1) = (rewindLfnN d (n + 1)).rewind_lfn
    rw [ih d.rewind_lfn]
    rfl

/-- C4 (amended): starting from any position that does not split a CRLF pair,
if all `n` forward `next_lfn` calls return a byte (the end of the buffer is
never hit), then `n` subsequent `rewind_lfn` calls restore the original
position, and the buffer is unchanged. -/
theorem c4_lfn_inverse (c : Cursor) (n : Nat) (hg : goodPos c.buf c.pos)
    (hs : lfnAllSome c n) :
    (rewindLfnN (nextLfnN c n) n).pos = c.pos ∧
    (rewindLfnN (nextLfnN c n) n).buf = c.buf := by
  induction n generalizing c with
  | zero => exact ⟨rfl, rfl⟩
  | succ n ih =>
    obtain ⟨hs1, hs2⟩ := hs
    obtain ⟨x, hx⟩ := Option.isSome_iff_exists.mp hs1
    obtain ⟨hbuf1, hgood1, hrw⟩ := next_lfn_step_inverse hg hx
    have hg1 : goodPos c.next_lfn.2.buf c.next_lfn.2.pos := by
      rw [hbuf1]
      exact hgood1
    have ih1 := ih c.next_lfn.2 hg1 hs2
    rw [show nextLfnN c (n + 1) = nextLfnN c.next_lfn.2 n from rfl, rewindLfnN_succ]
    rw [hbuf1] at ih1
    constructor
    · exact hrw _ ih1.2 ih1.1
    · rw [(rewind_lfn_cases _).1, ih1.2]

/-- Witness for C4, over `[0x0D, 0x0A, 0x41]` with two forward calls. -/
theorem c4_lfn_inverse_witness :
    (goodPos ([13, 10, 65] : List Nat) 0 ∧ lfnAllSome (Cursor.new [13, 10, 65]) 2) ∧
    (rewindLfnN (nextLfnN (Cursor.new [13, 10, 65]) 2) 2).pos = 0 :=
  ⟨⟨by decide, by decide⟩,
    (c4_lfn_inverse (Cursor.new [13, 10, 65]) 2 (by decide) (by decide)).1⟩

set_option maxRecDepth 8192 in
/-- Witness for C7, at the valid two-byte sequence `[0xC2, 0xA9]`. -/
theorem c7_accepted_shape_witness :
    ({ buf := [194, 169], pos := 2, index := 3 } : Cursor).pos =
      UTF8_CHAR_WIDTH.getD (([194, 169] : List Nat).getD 0 0) 0 ∧
    isContB (([194, 169] : List Nat).getD 1 0) = true := by
  have h := c7_accepted_shape [194, 169] { buf := [194, 169], pos := 2, index := 3 } rfl
  rcases h with h0 | ⟨h1, ⟨hw1, h2⟩ | ⟨hge, hpos, hcont⟩⟩
  · exact absurd h0 (by decide)
  · exact absurd hw1 (by decide)
  · exact ⟨hpos, hcont 1 (by decide) (by decide)⟩
